/-
Verification of the longterm-memory observation pipeline.

This file gives a shallow embedding, in Lean 4, of the core algorithms of the
repository:

* `scripts/ollama_embeddings.py` — `smart_chunk_text`,
  `chunk_long_observation`, `embed_observations`, `get_ollama_embedding`;
* `scripts/backfill_metadata.py` — `infer_observation_type`,
  `calculate_importance` (backfill variant);
* `browser-extension/native-host/longterm_memory_host.py` —
  `calculate_importance` (ingestion variant) and the tag normalization of
  `save_observation`;
* `dashboard/app.py` — the `/api/search/semantic` endpoint
  (`api_semantic_search`) and its Ollama / LM Studio provider chain.

Text is modelled as `List Char`.  The Python regular expressions used by the
source are small and fixed, so each one is embedded as an explicit character
scanner with the same semantics (restricted to ASCII, which is all the
patterns use).  Machine floats of the source are modelled as `ℚ`; the
PostgreSQL tables are modelled as Lean lists of records.
-/
import Mathlib

set_option maxRecDepth 8000

/-! ### Python string primitives -/

/-- Python regex `\s` on ASCII: space, tab, newline, carriage return,
vertical tab, form feed. -/
def pySpace (c : Char) : Bool :=
  c = ' ' || c = '\t' || c = '\n' || c = '\r' || c = '\x0b' || c = '\x0c'

/-- Python `str.strip()`: remove whitespace from both ends. -/
def pyStrip (l : List Char) : List Char :=
  ((l.dropWhile pySpace).reverse.dropWhile pySpace).reverse

/-- Erase every whitespace character.  Used to state that chunking preserves
the source text up to whitespace normalization. -/
def dropSpaces (l : List Char) : List Char :=
  l.filter (fun c => !pySpace c)

/-- Python `str.lower()` (ASCII fragment). -/
def pyLower (l : List Char) : List Char := l.map Char.toLower

/-- A list is blank when it strips to nothing (Python falsiness of
`t.strip()`). -/
def blank (l : List Char) : Bool := (pyStrip l).isEmpty

/-! ### The chunker, from `smart_chunk_text` in `scripts/ollama_embeddings.py`

`re.split(r'(?=\(\d+\))', text)` cuts the text immediately before every
occurrence of an opening parenthesis, one or more digits and a closing
parenthesis; a cut at position 0 contributes a leading empty part, exactly as
in Python. -/

/-- Does the text continue with one or more digits followed by a closing
parenthesis? (the `\d+\)` tail of the lookahead). -/
def digitsThenClose : List Char → Bool
  | [] => false
  | c :: cs => if c = ')' then true else if c.isDigit then digitsThenClose cs else false

/-- Wrong at the very first character: `\d+\)` needs at least one digit before
the closing parenthesis, so `digitsThenClose` may only accept `')'` after a
digit.  `digitsStart` enforces the leading digit. -/
def digitsStart : List Char → Bool
  | [] => false
  | c :: cs => c.isDigit && digitsThenClose cs

/-- The zero-width lookahead `(?=\(\d+\))` matches at this position. -/
def topicStart (l : List Char) : Bool :=
  match l with
  | c :: cs => c = '(' && digitsStart cs
  | [] => false

/-- Scanner for `re.split(r'(?=\(\d+\))', text)`: `acc` holds the current
part reversed; a cut emits the part and starts a new one at the matched
character. -/
def topicGo (acc : List Char) : List Char → List (List Char)
  | [] => [acc.reverse]
  | c :: cs =>
      if topicStart (c :: cs) then acc.reverse :: topicGo [c] cs
      else topicGo (c :: acc) cs

def topicSplit (text : List Char) : List (List Char) := topicGo [] text

/-- Sentence-ending punctuation, the `[.!?]` class. -/
def sentEnd (c : Char) : Bool := c = '.' || c = '!' || c = '?'

/-- The last character consumed into the current part ends a sentence. -/
def headSentEnd : List Char → Bool
  | c :: _ => sentEnd c
  | [] => false

/-- Scanner for `re.split(r'(?<=[.!?])\s+', text)`.  `acc` is the current
part reversed; `sep` is true while a whitespace separator run is being
consumed (the run is greedy, as `\s+` is). -/
def sentAux : List Char → List Char → Bool → List (List Char)
  | [], acc, _ => [acc.reverse]
  | c :: cs, acc, true =>
      if pySpace c then sentAux cs acc true else sentAux cs (c :: acc) false
  | c :: cs, acc, false =>
      if pySpace c && headSentEnd acc then acc.reverse :: sentAux cs [] true
      else sentAux cs (c :: acc) false

def sentSplit (text : List Char) : List (List Char) := sentAux text [] false

/-- The greedy sentence-accumulation loop of `smart_chunk_text`: `cur` is the
running `current_chunk` (always ending in the `" "` the loop appends). -/
def accGo (maxSize : Nat) : List (List Char) → List Char → List (List Char)
  | [], cur => if cur = [] then [] else [pyStrip cur]
  | s :: ss, cur =>
      if cur.length + s.length < maxSize then accGo maxSize ss (cur ++ s ++ [' '])
      else if cur = [] then accGo maxSize ss (s ++ [' '])
      else pyStrip cur :: accGo maxSize ss (s ++ [' '])

/-- The sentence-based fallback path of `smart_chunk_text`. -/
def sentenceChunks (text : List Char) (maxSize : Nat) : List (List Char) :=
  accGo maxSize (sentSplit text) []

/-- Model of `smart_chunk_text(text, max_size)`: try the numbered-topic split; accept
it when it produced more than one part and every non-blank part is strictly
under the size limit; otherwise fall back to sentence accumulation, and to a
single truncated piece when that produced no chunk at all. -/
def smart_chunk_text (text : List Char) (maxSize : Nat) : List (List Char) :=
  if 1 < (topicSplit text).length ∧
      ∀ t ∈ (topicSplit text).filter (fun t => !blank t), t.length < maxSize then
    ((topicSplit text).filter (fun t => !blank t)).map pyStrip
  else if sentenceChunks text maxSize = [] then [text.take maxSize]
  else sentenceChunks text maxSize

/-- Constant `MAX_CHUNK_SIZE` from `scripts/ollama_embeddings.py`. -/
def MAX_CHUNK_SIZE : Nat := 800

/-! ### Persisting chunks, from `chunk_long_observation`

`re.match(r'^([^:]+:)', obs_text)` captures the leading date/context marker:
at least one non-colon character followed by the first colon. -/

/-- The leading date/context marker of an observation text, or `[]` when the
text does not start with `[^:]+:`. -/
def dateMarker (text : List Char) : List Char :=
  let pre := text.takeWhile (fun c => c ≠ ':')
  if pre = [] ∨ pre.length = text.length then [] else pre ++ [':']

/-- Decimal digits of a natural number, for the `(Part i/N)` tag. -/
def natChars (n : Nat) : List Char := (Nat.repr n).data

/-- The persisted text of chunk `i` of `n`: with a non-empty marker the
f-string `f"{date_prefix} (Part {i}/{n}) {chunk_text[len(date_prefix):].strip()}"`,
otherwise `f"(Part {i}/{n}) {chunk_text}"`. -/
def chunkWithPart (marker : List Char) (i n : Nat) (chunk : List Char) : List Char :=
  if marker = [] then
    "(Part ".data ++ natChars i ++ "/".data ++ natChars n ++ ") ".data ++ chunk
  else
    marker ++ " (Part ".data ++ natChars i ++ "/".data ++ natChars n ++ ") ".data
      ++ pyStrip (chunk.drop marker.length)

/-! ### The store model

A row of the `observations` (or `observations_archive`) table, restricted to
the columns the scripts read and write. -/

structure Obs where
  oid : Nat
  entityId : Nat
  text : List Char
  idx : Nat
  sourceType : String
  embedding : Option (List ℚ)
deriving DecidableEq

/-- The database: active observations, archived observations, and the next
id the `observations_id_seq` sequence will hand out. -/
structure DB where
  active : List Obs
  archive : List Obs
  nextId : Nat
deriving DecidableEq

/-- The SQL statements issued by `chunk_long_observation`, as primitive
operations. -/
inductive DbOp where
  | insertActive (o : Obs)
  | copyToArchive (k : Nat)
  | deleteActive (k : Nat)
deriving DecidableEq

def applyOp (db : DB) : DbOp → DB
  | .insertActive o => ⟨db.active ++ [o], db.archive, db.nextId + 1⟩
  | .copyToArchive k =>
      ⟨db.active, db.archive ++ db.active.filter (fun x => x.oid = k), db.nextId⟩
  | .deleteActive k =>
      ⟨db.active.filter (fun x => x.oid ≠ k), db.archive, db.nextId⟩

/-- The chunk rows inserted by `chunk_long_observation`: chunk `i` (counting
from 0 here, from 1 in the Python `enumerate(chunks, 1)`) gets the next
sequence id, source type `'chunked'`, observation index `max_index + i + 1`
and the part-tagged text. -/
def mkChunkObs (eid nid maxIdx n : Nat) (marker : List Char) :
    Nat → List (List Char) → List Obs
  | _, [] => []
  | i, c :: cs =>
      ⟨nid + i, eid, chunkWithPart marker (i + 1) n c, maxIdx + i + 1, "chunked", none⟩ ::
        mkChunkObs eid nid maxIdx n marker (i + 1) cs

/-- The operation list of the chunking transaction: insert every chunk, copy
the original row into the archive, delete the original. -/
def chunkOps (db : DB) (obs : Obs) (maxIdx : Nat) : List DbOp :=
  (mkChunkObs obs.entityId db.nextId maxIdx
      (smart_chunk_text obs.text MAX_CHUNK_SIZE).length (dateMarker obs.text)
      0 (smart_chunk_text obs.text MAX_CHUNK_SIZE)).map DbOp.insertActive
    ++ [DbOp.copyToArchive obs.oid, DbOp.deleteActive obs.oid]

/-- Model of `chunk_long_observation(conn, obs_id, obs_text, entity_id, max_index)`.

The whole body runs on one psycopg2 connection whose single `conn.commit()`
comes after all inserts, the archive copy and the delete; an exception at any
earlier point (modelled by `failAt = some step`) leaves the transaction
uncommitted, so the visible store is unchanged.  When the chunker yields at
most one chunk the function returns `[]` before touching the store. -/
def chunk_long_observation (db : DB) (obs : Obs) (maxIdx : Nat) (failAt : Option Nat) :
    DB × List Nat :=
  if (smart_chunk_text obs.text MAX_CHUNK_SIZE).length ≤ 1 then (db, [])
  else
    match failAt with
    | some _ => (db, [])
    | none =>
        ((chunkOps db obs maxIdx).foldl applyOp db,
          (mkChunkObs obs.entityId db.nextId maxIdx
              (smart_chunk_text obs.text MAX_CHUNK_SIZE).length (dateMarker obs.text)
              0 (smart_chunk_text obs.text MAX_CHUNK_SIZE)).map Obs.oid)

/-! ### The embedding pass, from `embed_observations` -/

/-- Query `SELECT MAX(observation_index) FROM observations WHERE entity_id = %s`,
with SQL `NULL` collapsing to 0 as in the script. -/
def maxIdxFor (db : DB) (eid : Nat) : Nat :=
  ((db.active.filter (fun o => o.entityId = eid)).map Obs.idx).foldl max 0

/-- Statement `UPDATE observations SET embedding = %s WHERE id = %s`. -/
def setEmbedding (db : DB) (k : Nat) (v : List ℚ) : DB :=
  ⟨db.active.map (fun o => if o.oid = k then { o with embedding := some v } else o),
    db.archive, db.nextId⟩

/-- One iteration of the `embed_observations` loop for a selected observation,
with the embedding provider modelled as an oracle `f`.  An oversized text is
chunked; if chunking produced new rows they are embedded and the loop
continues, otherwise the code falls through to the normal path and embeds the
oversized text whole. -/
def embedStep (f : List Char → Option (List ℚ)) (db : DB) (obs : Obs) : DB :=
  if MAX_CHUNK_SIZE < obs.text.length then
    let r := chunk_long_observation db obs (maxIdxFor db obs.entityId) none
    if r.2 = [] then
      match f obs.text with
      | some v => setEmbedding db obs.oid v
      | none => db
    else
      r.2.foldl (fun d k =>
        match (d.active.filter (fun o => o.oid = k)).map Obs.text with
        | [] => d
        | t :: _ =>
            if t = [] then d
            else
              match f t with
              | some v => setEmbedding d k v
              | none => d) r.1
  else
    match f obs.text with
    | some v => setEmbedding db obs.oid v
    | none => db

/-- Model of `embed_observations`: iterate over the observations that have no
embedding yet (the script additionally orders them by creation time, which
the model keeps as the list order). -/
def embed_observations (f : List Char → Option (List ℚ)) (db : DB) : DB :=
  (db.active.filter (fun o => o.embedding.isNone)).foldl (embedStep f) db

/-! ### The classifier, from `scripts/backfill_metadata.py`

The type patterns are alternations of literal words, except the milestone
regex which also uses `\d+`.  A restricted regex form covers exactly those
shapes: an alternative is a sequence of atoms, an atom being a literal
character or a non-empty digit run (`\d+`, matched greedily, which agrees
with Python here because no alternative continues a digit run with another
digit atom). -/

inductive RAtom where
  | lit (c : Char)
  | digits
deriving DecidableEq

/-- Match a sequence of atoms at the head of the text, returning the number
of characters consumed. -/
def matchAtoms : List RAtom → List Char → Option Nat
  | [], _ => some 0
  | RAtom.lit c :: as, d :: ds =>
      if d = c then (matchAtoms as ds).map (· + 1) else none
  | RAtom.lit _ :: _, [] => none
  | RAtom.digits :: as, ds =>
      let run := ds.takeWhile Char.isDigit
      if run = [] then none
      else (matchAtoms as (ds.drop run.length)).map (· + run.length)

/-- Try the alternatives of an alternation in order (Python alternation is
ordered choice). -/
def firstAlt : List (List RAtom) → List Char → Option Nat
  | [], _ => none
  | a :: rest, text =>
      match matchAtoms a text with
      | some n => some n
      | none => firstAlt rest text

/-- Count `len(re.findall(pattern, text))` for such a pattern: scan left to right,
counting non-overlapping matches; every alternative is non-empty, so each
match consumes at least one character (the fuel argument makes the recursion
structural). -/
def countAux (alts : List (List RAtom)) : Nat → List Char → Nat
  | 0, _ => 0
  | _ + 1, [] => 0
  | fuel + 1, c :: cs =>
      match firstAlt alts (c :: cs) with
      | some n => 1 + countAux alts fuel ((c :: cs).drop (max n 1))
      | none => countAux alts fuel cs

def countMatches (alts : List (List RAtom)) (text : List Char) : Nat :=
  countAux alts text.length text

/-- One alternative that is a literal word. -/
def litPat (s : String) : List RAtom := s.data.map RAtom.lit

/-- An alternation of literal words. -/
def altLits (ss : List String) : List (List RAtom) := ss.map litPat

/-- Table `TYPE_PATTERNS`, in source (= dict insertion) order. -/
def TYPE_PATTERNS : List (String × List (List (List RAtom))) :=
  [("technical_achievement",
     [altLits ["successfully", "completed", "fixed", "resolved", "working",
               "deployed", "installed", "configured"],
      altLits ["migration complete", "now works", "bug fixed", "issue resolved"]]),
   ("milestone",
     [altLits ["milestone", "launched", "released", "shipped"] ++
        [litPat "v" ++ [RAtom.digits] ++ litPat "." ++ [RAtom.digits],
         litPat "version " ++ [RAtom.digits]],
      altLits ["first time", "breakthrough", "achievement"]]),
   ("insight",
     [altLits ["realized", "discovered", "learned", "understanding", "insight",
               "key finding"],
      altLits ["important:", "note:", "remember:"]]),
   ("project_update",
     [altLits ["progress", "update", "status", "working on", "building", "developing"],
      altLits ["added", "created", "implemented", "integrated"]]),
   ("research",
     [altLits ["research", "investigating", "exploring", "analyzing", "studying"],
      altLits ["paper", "article", "documentation", "spec"]]),
   ("decision",
     [altLits ["decided", "decision", "chose", "selected", "going with", "will use"],
      altLits ["strategy", "approach", "plan"]]),
   ("problem",
     [altLits ["issue", "problem", "error", "bug", "failed", "broken", "not working"],
      altLits ["trouble", "stuck", "blocker"]]),
   ("reference",
     [altLits ["reference", "documentation", "guide", "tutorial", "how to"],
      altLits ["url:", "link:", "see:", "docs:"]])]

/-- The score of one observation type: total match count over its patterns. -/
def typeScore (pats : List (List (List RAtom))) (lower : List Char) : Nat :=
  (pats.map (fun p => countMatches p lower)).sum

/-- Python `max(scores, key=scores.get)` over dict iteration order: keep the
first entry, replacing it only on a strictly larger score. -/
def bestGo (cur : String × Nat) : List (String × Nat) → String
  | [] => cur.1
  | p :: rest => if cur.2 < p.2 then bestGo p rest else bestGo cur rest

/-- The positive type scores, in pattern-table (= dict insertion) order. -/
def typeScores (text : List Char) : List (String × Nat) :=
  TYPE_PATTERNS.filterMap
    (fun ts => if 0 < typeScore ts.2 (pyLower text) then
        some (ts.1, typeScore ts.2 (pyLower text)) else none)

/-- Model of `infer_observation_type(text)`: score every type on the lowercased text,
keep the positive scores in pattern-table order, pick the first maximal one;
default to `'note'` when nothing matched. -/
def infer_observation_type (text : List Char) : String :=
  match typeScores text with
  | [] => "note"
  | p :: rest => bestGo p rest

/-! ### Importance scoring -/

/-- Table `HIGH_IMPORTANCE_SIGNALS`: each entry is an alternation of literal
words. -/
def HIGH_IMPORTANCE_SIGNALS : List (List String) :=
  [["important", "critical", "crucial", "essential", "key", "major"],
   ["breakthrough", "milestone", "achievement", "success"],
   ["production", "deployed", "released", "shipped"],
   ["decision", "strategy", "architecture"]]

def MEDIUM_IMPORTANCE_SIGNALS : List (List String) :=
  [["completed", "finished", "done", "working"],
   ["fixed", "resolved", "solved"],
   ["learned", "discovered", "realized"]]

def LOW_IMPORTANCE_SIGNALS : List (List String) :=
  [["testing", "trying", "experimenting"],
   ["minor", "small", "quick"],
   ["debug", "troubleshoot"]]

/-- Does `hay` start with `needle`? -/
def startsWithChars : List Char → List Char → Bool
  | [], _ => true
  | _ :: _, [] => false
  | c :: cs, d :: ds => c = d && startsWithChars cs ds

/-- Does `needle` occur as a contiguous substring of `hay`? -/
def containsSub (needle : List Char) : List Char → Bool
  | [] => needle = []
  | d :: ds => startsWithChars needle (d :: ds) || containsSub needle ds

/-- Search `re.search` of an alternation of literals: some alternative occurs
as a contiguous substring. -/
def searchAny (alts : List String) (lower : List Char) : Bool :=
  alts.any (fun a => containsSub a.data lower)

/-- How many signal patterns of a set fire on the text (each pattern
contributes once, as each guards its own `score +=` line). -/
def countSignals (sig : List (List String)) (lower : List Char) : Nat :=
  (sig.filter (fun p => searchAny p lower)).length

namespace Backfill

/-- Model of `calculate_importance(text, entity_name)` of `backfill_metadata.py`:
base 0.5, +0.15 per high signal, +0.08 per medium signal, −0.05 per low
signal, a length bonus, a user-entity bonus, clamped by
`max(0.1, min(1.0, score))`.  `userEntities` models the already lowercased
`LONGTERM_MEMORY_USER_ENTITIES` list. -/
def calculate_importance (text : List Char) (entityName : Option (List Char))
    (userEntities : List (List Char)) : ℚ :=
  let lower := pyLower text
  let s1 : ℚ := 1/2 + (3/20) * countSignals HIGH_IMPORTANCE_SIGNALS lower
      + (2/25) * countSignals MEDIUM_IMPORTANCE_SIGNALS lower
      - (1/20) * countSignals LOW_IMPORTANCE_SIGNALS lower
  let s2 := s1 + (if 500 < text.length then (1/10 : ℚ)
      else if 200 < text.length then 1/20 else 0)
  let s3 := s2 + (match entityName with
      | some nm => if nm ≠ [] ∧ pyLower nm ∈ userEntities then (1/10 : ℚ) else 0
      | none => 0)
  max (1/10) (min 1 s3)

end Backfill

namespace NativeHost

/-- Model of `calculate_importance(capture_type, has_notes, tags)` of
`longterm_memory_host.py`: base 0.5, +0.2 for notes, +0.1 for explicit tags,
−0.1 for full-page captures, clamped by `max(0.0, min(1.0, base))`. -/
def calculate_importance (captureType : String) (hasNotes : Bool)
    (tags : List (List Char)) : ℚ :=
  let b1 : ℚ := 1/2 + (if hasNotes then 1/5 else 0)
  let b2 := b1 + (if tags ≠ [] then 1/10 else 0)
  let b3 := b2 - (if captureType = "page" then 1/10 else 0)
  max 0 (min 1 b3)

/-- Python `str.split(',')`. -/
def splitCommaGo (acc : List Char) : List Char → List (List Char)
  | [] => [acc.reverse]
  | c :: cs =>
      if c = ',' then acc.reverse :: splitCommaGo [] cs
      else splitCommaGo (c :: acc) cs

def splitComma (s : List Char) : List (List Char) := splitCommaGo [] s

/-- The `tags` value of a capture message: either a comma-separated string or
already a list. -/
inductive TagsIn where
  | str (s : List Char)
  | list (l : List (List Char))

/-- Function `save_observation` first coerces the incoming tags to a list: a string
is split on commas into stripped non-empty tags. -/
def rawTags : TagsIn → List (List Char)
  | .str s => ((splitComma s).map pyStrip).filter (fun t => t ≠ [])
  | .list l => l

/-- A truthy category other than `'auto'` is appended when absent. -/
def withCategory (l : List (List Char)) (category : List Char) : List (List Char) :=
  if category ≠ [] ∧ category ≠ "auto".data ∧ category ∉ l then l ++ [category] else l

/-- The tag normalization of `save_observation`: coerce, append the category,
append `'browser'` when absent.  The same list is inserted into the `tags`
column and echoed in the success response. -/
def save_observation_tags (tagsIn : TagsIn) (category : List Char) : List (List Char) :=
  if "browser".data ∈ withCategory (rawTags tagsIn) category
  then withCategory (rawTags tagsIn) category
  else withCategory (rawTags tagsIn) category ++ ["browser".data]

end NativeHost

/-! ### The embedding provider chain

Both `get_ollama_embedding` in `scripts/ollama_embeddings.py` and the inline
chain of `/api/search/semantic` in `dashboard/app.py` try Ollama first and
fall back to LM Studio.  A provider outcome is modelled as `none` for an
exception / error response and `some v` for a decoded vector (`v = []` when
the response held no usable embedding, which both call sites treat as a
failure and fall through on). -/

/-- The LM Studio fallback branch: succeed only on a non-empty vector. -/
def lmBranch (lms : Option (List ℚ)) : Option (List ℚ × String) :=
  match lms with
  | some v => if v = [] then none else some (v, "lmstudio")
  | none => none

/-- Try Ollama, then LM Studio; report which provider satisfied the
request. -/
def providerChain (ollama lms : Option (List ℚ)) : Option (List ℚ × String) :=
  match ollama with
  | some v => if v = [] then lmBranch lms else some (v, "ollama")
  | none => lmBranch lms

/-- Model of `get_ollama_embedding(text)`: the script returns only the vector. -/
def get_ollama_embedding (ollama lms : Option (List ℚ)) : Option (List ℚ) :=
  (providerChain ollama lms).map Prod.fst

/-! ### The semantic search endpoint, from `api_semantic_search` -/

/-- A stored observation as the search endpoint sees it. -/
structure SObs where
  oid : Nat
  text : List Char
  embedding : Option (List ℚ)
deriving DecidableEq

structure SearchDB where
  active : List SObs
  archive : List SObs
deriving DecidableEq

/-- A ranked candidate: the row, its storage tag, and the similarity
`1 - (embedding <=> query)` the SQL computes.  The pgvector cosine operator
is external to this core; it enters the model as the function `simFn`. -/
structure Ranked where
  roid : Nat
  storage : String
  sim : ℚ
deriving DecidableEq

/-- A result row after JSON formatting: the similarity field as emitted
(`None` when the Python truthiness check on the value fails), and the
embedding column after `del r['embedding']` (never present, hence `none`). -/
structure OutRow where
  roid : Nat
  storage : String
  similarity : Option ℚ
  embedding : Option (List ℚ)
deriving DecidableEq

inductive SearchResp where
  | badRequest
  | unavailable503
  | ok (rows : List OutRow) (count : Nat) (minSim : ℚ) (src : String)
deriving DecidableEq

/-- Clamp `limit = min(100, max(1, int(...)))`. -/
def clampLimit (l : Int) : Nat := (min 100 (max 1 l)).toNat

/-- Clamp `min_similarity = min(1.0, max(0.0, float(...)))`. -/
def clampSim (s : ℚ) : ℚ := min 1 (max 0 s)

/-- Round half to even, the rounding mode of Python `round`. -/
def roundHalfEven (x : ℚ) : ℤ :=
  if x - ⌊x⌋ < 1/2 then ⌊x⌋
  else if 1/2 < x - ⌊x⌋ then ⌊x⌋ + 1
  else if ⌊x⌋ % 2 = 0 then ⌊x⌋ else ⌊x⌋ + 1

/-- Rounding `round(x, 4)`. -/
def round4 (x : ℚ) : ℚ := (roundHalfEven (x * 10000) : ℚ) / 10000

/-- The `WHERE o.embedding IS NOT NULL` scan of one table with its computed
similarity column. -/
def rankRows (simFn : List ℚ → List ℚ → ℚ) (qv : List ℚ) (storage : String)
    (rows : List SObs) : List Ranked :=
  rows.filterMap (fun o =>
    match o.embedding with
    | some e => some ⟨o.oid, storage, simFn qv e⟩
    | none => none)

/-- With `include_archive` the two tables are scanned into one `UNION ALL`
pool before any ordering or limiting. -/
def searchPool (simFn : List ℚ → List ℚ → ℚ) (qv : List ℚ) (db : SearchDB)
    (inc : Bool) : List Ranked :=
  if inc then
    rankRows simFn qv "active" db.active ++ rankRows simFn qv "archive" db.archive
  else rankRows simFn qv "active" db.active

/-- Filter `WHERE similarity >= min_similarity`. -/
def searchKept (simFn : List ℚ → List ℚ → ℚ) (qv : List ℚ) (db : SearchDB)
    (inc : Bool) (minSim : ℚ) : List Ranked :=
  (searchPool simFn qv db inc).filter (fun r => decide (minSim ≤ r.sim))

/-- Descending-similarity order used by `ORDER BY similarity DESC`. -/
def descBySim (a b : Ranked) : Prop := b.sim ≤ a.sim

instance : DecidableRel descBySim :=
  fun a b => inferInstanceAs (Decidable (b.sim ≤ a.sim))

instance : IsTotal Ranked descBySim := ⟨fun a b => le_total b.sim a.sim⟩

instance : IsTrans Ranked descBySim := ⟨fun _ _ _ h1 h2 => le_trans h2 h1⟩

/-- Ranking `ORDER BY similarity DESC LIMIT %s` (SQL leaves the order among ties
open; the model fixes one total order consistent with it). -/
def searchLimited (simFn : List ℚ → List ℚ → ℚ) (qv : List ℚ) (db : SearchDB)
    (inc : Bool) (minSim : ℚ) (limitN : Nat) : List Ranked :=
  (List.insertionSort descBySim (searchKept simFn qv db inc minSim)).take limitN

/-- The JSON formatting loop: `del r['embedding']`, and
`r['similarity'] = round(r['similarity'], 4) if r.get('similarity') else None`
— a similarity of exactly 0 is falsy in Python and comes out as `None`. -/
def formatRow (r : Ranked) : OutRow :=
  ⟨r.roid, r.storage, if r.sim = 0 then none else some (round4 r.sim), none⟩

/-- Endpoint `/api/search/semantic`: empty query is a 400; both providers failing is a
503; otherwise filter, rank, limit and format as above. -/
def api_semantic_search (simFn : List ℚ → List ℚ → ℚ) (db : SearchDB)
    (ollama lms : Option (List ℚ)) (q : List Char) (limitRaw : Int) (minRaw : ℚ)
    (inc : Bool) : SearchResp :=
  if pyStrip q = [] then .badRequest
  else
    match providerChain ollama lms with
    | none => .unavailable503
    | some (qv, src) =>
        let rows := (searchLimited simFn qv db inc (clampSim minRaw)
            (clampLimit limitRaw)).map formatRow
        .ok rows rows.length (clampSim minRaw) src

/-! ### Helper lemmas about the chunker -/

theorem pyStrip_length_le (l : List Char) : (pyStrip l).length ≤ l.length := by
  unfold pyStrip
  calc (((l.dropWhile pySpace).reverse.dropWhile pySpace).reverse).length
      = ((l.dropWhile pySpace).reverse.dropWhile pySpace).length := by
        rw [List.length_reverse]
    _ ≤ (l.dropWhile pySpace).reverse.length := (List.dropWhile_sublist pySpace).length_le
    _ = (l.dropWhile pySpace).length := by rw [List.length_reverse]
    _ ≤ l.length := (List.dropWhile_sublist pySpace).length_le

theorem dropSpaces_nil : dropSpaces [] = [] := rfl

theorem dropSpaces_append (a b : List Char) :
    dropSpaces (a ++ b) = dropSpaces a ++ dropSpaces b := by
  simp [dropSpaces]

theorem dropSpaces_reverse (l : List Char) :
    dropSpaces l.reverse = (dropSpaces l).reverse := by
  simp [dropSpaces]

theorem dropSpaces_space_cons {c : Char} (h : pySpace c = true) (l : List Char) :
    dropSpaces (c :: l) = dropSpaces l := by
  simp [dropSpaces, List.filter_cons, h]

theorem dropSpaces_cons {c : Char} (h : pySpace c = false) (l : List Char) :
    dropSpaces (c :: l) = c :: dropSpaces l := by
  simp [dropSpaces, List.filter_cons, h]

theorem dropSpaces_dropWhile (l : List Char) :
    dropSpaces (l.dropWhile pySpace) = dropSpaces l := by
  induction l with
  | nil => rfl
  | cons c cs ih =>
      by_cases h : pySpace c = true
      · rw [List.dropWhile_cons_of_pos h, ih, dropSpaces_space_cons h]
      · rw [List.dropWhile_cons_of_neg (by simp [h])]

theorem dropSpaces_pyStrip (l : List Char) : dropSpaces (pyStrip l) = dropSpaces l := by
  unfold pyStrip
  rw [dropSpaces_reverse, dropSpaces_dropWhile, dropSpaces_reverse,
    dropSpaces_dropWhile, List.reverse_reverse]

theorem sentAux_ne_nil : ∀ (text acc : List Char) (sep : Bool), sentAux text acc sep ≠ [] := by
  intro text
  induction text with
  | nil => intro acc sep; simp [sentAux]
  | cons c cs ih =>
      intro acc sep
      cases sep with
      | true =>
          rw [sentAux]
          split
          · exact ih acc true
          · exact ih (c :: acc) false
      | false =>
          rw [sentAux]
          split
          · simp
          · exact ih (c :: acc) false

theorem sentSplit_ne_nil (text : List Char) : sentSplit text ≠ [] :=
  sentAux_ne_nil text [] false

theorem accGo_ne_nil (maxSize : Nat) :
    ∀ (ss : List (List Char)) (cur : List Char), ss ≠ [] ∨ cur ≠ [] →
      accGo maxSize ss cur ≠ [] := by
  intro ss
  induction ss with
  | nil =>
      intro cur h
      rcases h with h | h
      · exact absurd rfl h
      · simp [accGo, h]
  | cons s ss ih =>
      intro cur _
      rw [accGo]
      split
      · exact ih (cur ++ s ++ [' ']) (Or.inr (by simp))
      · split
        · exact ih (s ++ [' ']) (Or.inr (by simp))
        · simp

theorem sentenceChunks_ne_nil (text : List Char) (maxSize : Nat) :
    sentenceChunks text maxSize ≠ [] :=
  accGo_ne_nil maxSize (sentSplit text) []
    (Or.inl (sentSplit_ne_nil text))

theorem sentAux_flatten : ∀ (text acc : List Char) (sep : Bool),
    ((sentAux text acc sep).map dropSpaces).flatten
      = dropSpaces acc.reverse ++ dropSpaces text := by
  intro text
  induction text with
  | nil => intro acc sep; simp [sentAux, dropSpaces]
  | cons c cs ih =>
      intro acc sep
      cases sep with
      | true =>
          rw [sentAux]
          split
          · next h =>
              rw [ih acc true, dropSpaces_space_cons h]
          · next h =>
              rw [ih (c :: acc) false, dropSpaces_cons (by simpa using h)]
              simp [dropSpaces_append, dropSpaces_cons (by simpa using h), dropSpaces_nil]
      | false =>
          rw [sentAux]
          split
          · next h =>
              have hc : pySpace c = true := (Bool.and_eq_true .. ▸ h).1
              rw [List.map_cons, List.flatten_cons, ih [] true,
                dropSpaces_space_cons hc]
              simp [dropSpaces_nil]
          · next h =>
              by_cases hc : pySpace c = true
              · rw [ih (c :: acc) false]
                simp [dropSpaces_append, dropSpaces_space_cons hc,
                  dropSpaces_reverse, dropSpaces_nil]
              · rw [ih (c :: acc) false]
                have hc' : pySpace c = false := by simpa using hc
                simp [dropSpaces_append, dropSpaces_cons hc', dropSpaces_reverse,
                  dropSpaces_nil]

theorem accGo_flatten (maxSize : Nat) :
    ∀ (ss : List (List Char)) (cur : List Char),
      ((accGo maxSize ss cur).map dropSpaces).flatten
        = dropSpaces cur ++ (ss.map dropSpaces).flatten := by
  intro ss
  induction ss with
  | nil =>
      intro cur
      rw [accGo]
      split
      · next h => simp [h, dropSpaces_nil]
      · simp [dropSpaces_pyStrip]
  | cons s ss ih =>
      intro cur
      rw [accGo]
      split
      · rw [ih (cur ++ s ++ [' '])]
        simp [dropSpaces_append, dropSpaces_space_cons (show pySpace ' ' = true by rfl),
          dropSpaces_nil]
      · split
        · next h _ =>
            rw [ih (s ++ [' '])]
            simp_all [dropSpaces_append, dropSpaces_nil,
              dropSpaces_space_cons (show pySpace ' ' = true by rfl)]
        · rw [List.map_cons, List.flatten_cons, ih (s ++ [' ']), dropSpaces_pyStrip]
          simp [dropSpaces_append, dropSpaces_space_cons (show pySpace ' ' = true by rfl),
            dropSpaces_nil]

theorem sentenceChunks_flatten (text : List Char) (maxSize : Nat) :
    ((sentenceChunks text maxSize).map dropSpaces).flatten = dropSpaces text := by
  rw [sentenceChunks, accGo_flatten, sentSplit, sentAux_flatten]
  simp [dropSpaces_nil]

theorem topicGo_flatten : ∀ (text acc : List Char),
    (topicGo acc text).flatten = acc.reverse ++ text := by
  intro text
  induction text with
  | nil => intro acc; simp [topicGo]
  | cons c cs ih =>
      intro acc
      rw [topicGo]
      split
      · rw [List.flatten_cons, ih [c]]
        simp
      · rw [ih (c :: acc)]
        simp

theorem topicGo_ne_nil : ∀ (text acc : List Char), topicGo acc text ≠ [] := by
  intro text
  induction text with
  | nil => intro acc; simp [topicGo]
  | cons c cs ih =>
      intro acc
      rw [topicGo]
      split
      · simp
      · exact ih (c :: acc)

theorem topicGo_head : ∀ (text acc : List Char),
    ∃ u, (topicGo acc text).head? = some (acc.reverse ++ u) := by
  intro text
  induction text with
  | nil => intro acc; exact ⟨[], by simp [topicGo]⟩
  | cons c cs ih =>
      intro acc
      rw [topicGo]
      split
      · exact ⟨[], by simp⟩
      · obtain ⟨u, hu⟩ := ih (c :: acc)
        exact ⟨c :: u, by simpa using hu⟩

theorem topicStart_paren {c : Char} {cs : List Char}
    (h : topicStart (c :: cs) = true) : c = '(' := by
  simp [topicStart] at h
  exact h.1

theorem topicGo_tail_paren : ∀ (text acc p : List Char),
    p ∈ (topicGo acc text).drop 1 → ∃ u, p = '(' :: u := by
  intro text
  induction text with
  | nil => intro acc p h; simp [topicGo] at h
  | cons c cs ih =>
      intro acc p h
      rw [topicGo] at h
      by_cases hs : topicStart (c :: cs) = true
      · rw [if_pos hs, List.drop_one, List.tail_cons] at h
        have hcp : c = '(' := topicStart_paren hs
        rcases List.exists_cons_of_ne_nil (topicGo_ne_nil cs [c]) with ⟨q, qs, hq⟩
        rw [hq] at h
        rcases List.mem_cons.mp h with h1 | h1
        · obtain ⟨u, hu⟩ := topicGo_head cs [c]
          rw [hq] at hu
          simp at hu
          exact ⟨u, by rw [h1, hu, hcp]⟩
        · exact ih [c] p (by rw [hq]; simpa using h1)
      · rw [if_neg hs] at h
        exact ih (c :: acc) p h

theorem topicSplit_flatten (text : List Char) : (topicSplit text).flatten = text := by
  rw [topicSplit, topicGo_flatten]; rfl

theorem pyStrip_ne_nil_of_head {c : Char} (hc : pySpace c = false) (l : List Char) :
    pyStrip (c :: l) ≠ [] := by
  intro h
  have := dropSpaces_pyStrip (c :: l)
  rw [h, dropSpaces_nil, dropSpaces_cons hc] at this
  exact List.noConfusion this

/-- Oversized emitted chunks can only come from single oversized sentences:
invariant of the accumulation loop. -/
theorem accGo_bound (maxSize : Nat) :
    ∀ (ss : List (List Char)) (cur : List Char),
      (cur = [] ∨ cur.length ≤ maxSize ∨ ∃ s, cur = s ++ [' '] ∧ maxSize ≤ s.length) →
      ∀ c ∈ accGo maxSize ss cur,
        c.length ≤ maxSize ∨
          ∃ s, (cur = s ++ [' '] ∨ s ∈ ss) ∧ c = pyStrip (s ++ [' ']) ∧
            maxSize ≤ s.length := by
  intro ss
  induction ss with
  | nil =>
      intro cur hcur c hc
      rw [accGo] at hc
      split at hc
      · simp at hc
      · next hne =>
          rw [List.mem_singleton] at hc
          rcases hcur with h | h | ⟨s, hs, hlen⟩
          · exact absurd h hne
          · exact Or.inl (hc ▸ le_trans (pyStrip_length_le cur) h)
          · exact Or.inr ⟨s, Or.inl hs, by rw [hc, hs], hlen⟩
  | cons s ss ih =>
      intro cur hcur c hc
      rw [accGo] at hc
      split at hc
      · next hfit =>
          have hcur' : cur ++ s ++ [' '] = [] ∨ (cur ++ s ++ [' ']).length ≤ maxSize ∨
              ∃ t, cur ++ s ++ [' '] = t ++ [' '] ∧ maxSize ≤ t.length := by
            refine Or.inr (Or.inl ?_)
            simp only [List.length_append, List.length_cons, List.length_nil]
            omega
          rcases ih (cur ++ s ++ [' ']) hcur' c hc with h | ⟨t, ht, hct, hlen⟩
          · exact Or.inl h
          · rcases ht with ht | ht
            · exfalso
              have h1 : (cur ++ s ++ [' ']).length = t.length + 1 := by
                rw [ht]; simp
              have h2 : (cur ++ s ++ [' ']).length ≤ maxSize := by
                simp only [List.length_append, List.length_cons, List.length_nil]
                omega
              omega
            · exact Or.inr ⟨t, Or.inr (List.mem_cons_of_mem s ht), hct, hlen⟩
      · next hfit =>
          have hnext : ∀ d, d ∈ accGo maxSize ss (s ++ [' ']) →
              d.length ≤ maxSize ∨
                ∃ t, (t = s ∨ t ∈ ss) ∧ d = pyStrip (t ++ [' ']) ∧ maxSize ≤ t.length := by
            intro d hd
            have hcur' : s ++ [' '] = [] ∨ (s ++ [' ']).length ≤ maxSize ∨
                ∃ t, s ++ [' '] = t ++ [' '] ∧ maxSize ≤ t.length := by
              by_cases hsl : (s ++ [' ']).length ≤ maxSize
              · exact Or.inr (Or.inl hsl)
              · refine Or.inr (Or.inr ⟨s, rfl, ?_⟩)
                simp only [List.length_append, List.length_cons, List.length_nil] at hsl
                omega
            rcases ih (s ++ [' ']) hcur' d hd with h | ⟨t, ht, hdt, hlen⟩
            · exact Or.inl h
            · rcases ht with ht | ht
              · exact Or.inr ⟨t, Or.inl (List.append_cancel_right ht.symm), hdt, hlen⟩
              · exact Or.inr ⟨t, Or.inr ht, hdt, hlen⟩
          split at hc
          · rcases hnext c hc with h | ⟨t, ht, hct, hlen⟩
            · exact Or.inl h
            · have htm : t ∈ s :: ss := by
                rcases ht with h | h
                · exact h ▸ List.mem_cons_self s ss
                · exact List.mem_cons_of_mem s h
              exact Or.inr ⟨t, Or.inr htm, hct, hlen⟩
          · next hne =>
              rcases List.mem_cons.mp hc with h1 | h1
              · rcases hcur with h | h | ⟨t, htc, hlen⟩
                · exact absurd h hne
                · exact Or.inl (h1 ▸ le_trans (pyStrip_length_le cur) h)
                · exact Or.inr ⟨t, Or.inl htc, by rw [h1, htc], hlen⟩
              · rcases hnext c h1 with h | ⟨t, ht, hct, hlen⟩
                · exact Or.inl h
                · have htm : t ∈ s :: ss := by
                    rcases ht with h | h
                    · exact h ▸ List.mem_cons_self s ss
                    · exact List.mem_cons_of_mem s h
                  exact Or.inr ⟨t, Or.inr htm, hct, hlen⟩

theorem blank_dropSpaces {t : List Char} (h : blank t = true) : dropSpaces t = [] := by
  have : pyStrip t = [] := by
    simpa [blank, List.isEmpty_iff] using h
  rw [← dropSpaces_pyStrip, this, dropSpaces_nil]

theorem flatten_filter_blank : ∀ L : List (List Char),
    ((L.filter (fun t => !blank t)).map dropSpaces).flatten = (L.map dropSpaces).flatten := by
  intro L
  induction L with
  | nil => rfl
  | cons t ts ih =>
      rw [List.filter_cons]
      by_cases h : blank t = true
      · simp only [h, Bool.not_true, Bool.false_eq_true, if_false]
        rw [ih, List.map_cons, List.flatten_cons, blank_dropSpaces h, List.nil_append]
      · have h' : (!blank t) = true := by simp_all
        rw [if_pos h', List.map_cons, List.flatten_cons, ih, List.map_cons,
          List.flatten_cons]

theorem dropSpaces_flatten : ∀ L : List (List Char),
    (L.map dropSpaces).flatten = dropSpaces L.flatten := by
  intro L
  induction L with
  | nil => rfl
  | cons t ts ih => rw [List.map_cons, List.flatten_cons, List.flatten_cons,
      dropSpaces_append, ih]

/-- When the topic condition fails, `smart_chunk_text` is exactly the
sentence-accumulation split of the whole text (the truncation fallback is
unreachable because the accumulation always emits at least one chunk). -/
theorem smart_chunk_text_sentence {text : List Char} {maxSize : Nat}
    (h : ¬(1 < (topicSplit text).length ∧
      ∀ t ∈ (topicSplit text).filter (fun t => !blank t), t.length < maxSize)) :
    smart_chunk_text text maxSize = sentenceChunks text maxSize := by
  rw [smart_chunk_text, if_neg h, if_neg (sentenceChunks_ne_nil text maxSize)]

/-- Every accepted topic split contains a part that starts with an opening
parenthesis, so the chunk list of the topic branch is never empty. -/
theorem topic_branch_ne_nil {text : List Char}
    (h1 : 1 < (topicSplit text).length) :
    (((topicSplit text).filter (fun t => !blank t)).map pyStrip) ≠ [] := by
  have hd : 0 < ((topicSplit text).drop 1).length := by
    rw [List.length_drop]; omega
  obtain ⟨p, hp⟩ :=
    List.exists_mem_of_ne_nil _ (List.length_pos.mp hd)
  obtain ⟨u, hu⟩ := topicGo_tail_paren text [] p hp
  have hne : pyStrip p ≠ [] := by
    rw [hu]; exact pyStrip_ne_nil_of_head (by rfl) u
  have hb : blank p = false := by
    rw [blank]; exact List.isEmpty_eq_false.mpr hne
  have hmem : p ∈ (topicSplit text).filter (fun t => !blank t) :=
    List.mem_filter.mpr ⟨List.mem_of_mem_drop hp, by rw [hb]; rfl⟩
  exact List.ne_nil_of_mem (List.mem_map_of_mem pyStrip hmem)

theorem smart_chunk_text_ne_nil (text : List Char) (maxSize : Nat) :
    smart_chunk_text text maxSize ≠ [] := by
  by_cases h : 1 < (topicSplit text).length ∧
      ∀ t ∈ (topicSplit text).filter (fun t => !blank t), t.length < maxSize
  · rw [smart_chunk_text, if_pos h]
    exact topic_branch_ne_nil h.1
  · rw [smart_chunk_text_sentence h]
    exact sentenceChunks_ne_nil text maxSize

/-- The chunker contract of claim C3, amended at the length-bound clause:
chunks are a non-empty list, their concatenation is the source text up to
whitespace, and every chunk fits under the size limit except chunks that are
a single source sentence already longer than the limit.  The truncating hard
fallback never fires. -/
def c3Spec (text : List Char) (maxSize : Nat) : Prop :=
  smart_chunk_text text maxSize ≠ []
  ∧ ((smart_chunk_text text maxSize).map dropSpaces).flatten = dropSpaces text
  ∧ ∀ c ∈ smart_chunk_text text maxSize,
      c.length ≤ maxSize ∨
        ∃ s ∈ sentSplit text, c = pyStrip (s ++ [' ']) ∧ maxSize ≤ s.length

/-- C3, amended: the possibly-oversized chunks are exactly the single
oversized sentences, not one terminal hard-fallback piece. -/
theorem c3_chunker_cover (text : List Char) (maxSize : Nat)
    (h : maxSize < text.length) : c3Spec text maxSize := by
  by_cases hcond : 1 < (topicSplit text).length ∧
      ∀ t ∈ (topicSplit text).filter (fun t => !blank t), t.length < maxSize
  · have hs : smart_chunk_text text maxSize
        = ((topicSplit text).filter (fun t => !blank t)).map pyStrip := by
      rw [smart_chunk_text, if_pos hcond]
    refine ⟨smart_chunk_text_ne_nil text maxSize, ?_, ?_⟩
    · rw [hs, List.map_map]
      have hmm : ((topicSplit text).filter (fun t => !blank t)).map (dropSpaces ∘ pyStrip)
          = ((topicSplit text).filter (fun t => !blank t)).map dropSpaces :=
        List.map_congr_left (fun t _ => dropSpaces_pyStrip t)
      rw [hmm, flatten_filter_blank, dropSpaces_flatten, topicSplit_flatten]
    · intro c hc
      rw [hs] at hc
      obtain ⟨t, htm, htc⟩ := List.mem_map.mp hc
      have := hcond.2 t htm
      exact Or.inl (htc ▸ le_trans (pyStrip_length_le t) (le_of_lt this))
  · have hs : smart_chunk_text text maxSize = sentenceChunks text maxSize :=
      smart_chunk_text_sentence hcond
    refine ⟨smart_chunk_text_ne_nil text maxSize, ?_, ?_⟩
    · rw [hs]; exact sentenceChunks_flatten text maxSize
    · intro c hc
      rw [hs] at hc
      rcases accGo_bound maxSize (sentSplit text) [] (Or.inl rfl) c hc with
        hle | ⟨s, hsm, hcs, hsl⟩
      · exact Or.inl hle
      · rcases hsm with hbad | hsm
        · exact absurd (congrArg List.length hbad) (by simp)
        · exact Or.inr ⟨s, hsm, hcs, hsl⟩

/-! ### Claim C3 -/

/-- C3 counterexample: the claim says every chunk fits under the size limit
except possibly one irregular terminal piece produced by the hard fallback.
On this input the chunker returns two chunks without the hard fallback firing
(the fallback would return exactly one truncated piece), and the oversized
chunk is the first, not the terminal one: a sentence of 13 characters cannot
be split below the limit 10 and is emitted as a leading oversized chunk. -/
theorem c3_counterexample :
    smart_chunk_text "aaaaaaaaaaaa. b.".data 10 = ["aaaaaaaaaaaa.".data, "b.".data]
    ∧ 10 < ("aaaaaaaaaaaa.".data).length
    ∧ (smart_chunk_text "aaaaaaaaaaaa. b.".data 10).length = 2 := by
  decide

/-- C3 witness: the amended contract evaluated at the same concrete input. -/
theorem c3_chunker_cover_witness :
    10 < ("aaaaaaaaaaaa. b.".data).length ∧ c3Spec "aaaaaaaaaaaa. b.".data 10 :=
  ⟨by decide, c3_chunker_cover _ _ (by decide)⟩

/-! ### Claim C8 -/

def c8Text : List Char := "(1) intro text (2) more text".data

/-- C8, amended: (i) the documented example splits into exactly the two
topic segments for any size limit above the larger segment (15 characters
with its trailing space) and below the whole text; (ii) whenever the topic
split yields a segment with non-whitespace content that exceeds the size
limit, the whole text falls through to sentence-based splitting (the
amendment adds "with non-whitespace content": an all-whitespace oversized
segment is exempted from the size check by the code, see the
counterexample). -/
theorem c8_topical_split :
    (∀ maxSize : Nat, 15 < maxSize → maxSize < 28 →
        smart_chunk_text c8Text maxSize = ["(1) intro text".data, "(2) more text".data])
    ∧ (∀ (text : List Char) (maxSize : Nat) (t : List Char),
        t ∈ topicSplit text → pyStrip t ≠ [] → maxSize < t.length →
        smart_chunk_text text maxSize = sentenceChunks text maxSize) := by
  constructor
  · intro maxSize h1 _
    have ht : topicSplit c8Text
        = [[], "(1) intro text ".data, "(2) more text".data] := by decide
    have hf : (topicSplit c8Text).filter (fun t => !blank t)
        = ["(1) intro text ".data, "(2) more text".data] := by
      rw [ht]; decide
    have hcond : 1 < (topicSplit c8Text).length ∧
        ∀ t ∈ (topicSplit c8Text).filter (fun t => !blank t), t.length < maxSize := by
      refine ⟨by rw [ht]; norm_num, ?_⟩
      rw [hf]
      intro t htm
      rcases List.mem_cons.mp htm with h | h
      · have : t.length = 15 := by rw [h]; decide
        omega
      · rcases List.mem_cons.mp h with h2 | h2
        · have : t.length = 13 := by rw [h2]; decide
          omega
        · simp at h2
    rw [smart_chunk_text, if_pos hcond, hf]
    decide
  · intro text maxSize t htm hts hlen
    apply smart_chunk_text_sentence
    rintro ⟨_, hall⟩
    have hb : blank t = false := by
      rw [blank]; exact List.isEmpty_eq_false.mpr hts
    have hmem : t ∈ (topicSplit text).filter (fun t => !blank t) :=
      List.mem_filter.mpr ⟨htm, by rw [hb]; rfl⟩
    have := hall t hmem
    omega

/-- C8 counterexample to the claim as stated: a topic segment of 11
whitespace characters exceeds the size limit 10, yet the chunker accepts the
topical split instead of abandoning it — the code only size-checks segments
with non-blank content.  Sentence-based splitting of this text would return a
single chunk, so the two results differ. -/
theorem c8_counterexample :
    List.replicate 11 ' ' ∈ topicSplit (List.replicate 11 ' ' ++ "(1) a (2) b".data)
    ∧ 10 < (List.replicate 11 ' ' : List Char).length
    ∧ smart_chunk_text (List.replicate 11 ' ' ++ "(1) a (2) b".data) 10
        = ["(1) a".data, "(2) b".data]
    ∧ sentenceChunks (List.replicate 11 ' ' ++ "(1) a (2) b".data) 10
        = ["(1) a (2) b".data]
    ∧ smart_chunk_text (List.replicate 11 ' ' ++ "(1) a (2) b".data) 10
        ≠ sentenceChunks (List.replicate 11 ' ' ++ "(1) a (2) b".data) 10 := by
  decide

/-- C8 witness: both amended statements applied at concrete inputs. -/
theorem c8_topical_split_witness :
    smart_chunk_text c8Text 20 = ["(1) intro text".data, "(2) more text".data]
    ∧ smart_chunk_text ("(1) ".data ++ List.replicate 11 'a' ++ " (2) b".data) 10
        = sentenceChunks ("(1) ".data ++ List.replicate 11 'a' ++ " (2) b".data) 10 :=
  ⟨c8_topical_split.1 20 (by norm_num) (by norm_num),
   c8_topical_split.2 ("(1) ".data ++ List.replicate 11 'a' ++ " (2) b".data) 10
     ("(1) ".data ++ List.replicate 11 'a' ++ [' ']) (by decide) (by decide) (by decide)⟩

/-! ### Claim C1 -/

def c1Text : List Char :=
  "D: (1) ".data ++ List.replicate 400 'a' ++ " (2) ".data ++ List.replicate 400 'b'

def c1Obs : Obs := ⟨1, 1, c1Text, 1, "manual", none⟩

def c1DB : DB := ⟨[c1Obs], [], 2⟩

/-- C1 failing input: an 812-character observation with a leading date
marker, split by the chunker into 3 chunks.  The persisted chunks do carry
the marker, the `(Part i/N)` tags and consecutive sequence indices
`max+1 .. max+N`, but `chunk_long_observation` strips
`chunk_text[len(date_prefix):]` from EVERY chunk even though only the first
chunk starts with the marker: chunks 2 and 3 lose their first
`len(date_prefix)` characters (here `"(1"` and `"(2"`), so the persisted
chunk is not marker + part tag + chunk text and the original text is not
reconstructible from the chunks.  The last conjunct exhibits the mismatch
with the form the claim asserts. -/
theorem c1_chunk_reconstruction_bug :
    smart_chunk_text c1Text MAX_CHUNK_SIZE
      = ["D:".data, "(1) ".data ++ List.replicate 400 'a',
         "(2) ".data ++ List.replicate 400 'b']
    ∧ ((chunk_long_observation c1DB c1Obs 1 none).1.active.map Obs.text)
      = ["D: (Part 1/3) ".data,
         "D: (Part 2/3) ) ".data ++ List.replicate 400 'a',
         "D: (Part 3/3) ) ".data ++ List.replicate 400 'b']
    ∧ ((chunk_long_observation c1DB c1Obs 1 none).1.active.map Obs.idx) = [2, 3, 4]
    ∧ "D: (Part 2/3) ) ".data ++ List.replicate 400 'a'
        ≠ "D:".data ++ " (Part 2/3) ".data ++ ("(1) ".data ++ List.replicate 400 'a') := by
  decide

/-! ### Claim C4 -/

def c4Text : List Char := List.replicate 801 'x'

def c4Obs : Obs := ⟨1, 1, c4Text, 1, "manual", none⟩

def c4DB : DB := ⟨[c4Obs], [], 2⟩

def c4Oracle : List Char → Option (List ℚ) := fun _ => some [1]

/-- C4 failing input: an 801-character observation with no sentence boundary
and no topic markers.  `smart_chunk_text` returns it as a single chunk, so
`chunk_long_observation` returns no new ids; `embed_observations` then falls
through to the path its own comment reserves for "observations under
MAX_CHUNK_SIZE" and embeds the oversized text whole.  The resulting store
violates the invariant: an observation with a non-null embedding whose text
exceeds the chunk threshold and whose source type is not `'chunked'`. -/
theorem c4_embed_invariant_bug :
    (embed_observations c4Oracle c4DB).active
      = [⟨1, 1, c4Text, 1, "manual", some [1]⟩]
    ∧ MAX_CHUNK_SIZE < c4Text.length
    ∧ (⟨1, 1, c4Text, 1, "manual", some [1]⟩ : Obs).sourceType ≠ "chunked" := by
  decide

/-! ### Claim C5 -/

/-- C5: both importance calculators stay inside their documented bounds for
every input: the backfill variant clamps with `max(0.1, min(1.0, score))`,
the ingestion variant with `max(0.0, min(1.0, base))`. -/
theorem c5_importance_bounds :
    (∀ (text : List Char) (entityName : Option (List Char))
        (userEntities : List (List Char)),
        1/10 ≤ Backfill.calculate_importance text entityName userEntities
        ∧ Backfill.calculate_importance text entityName userEntities ≤ 1)
    ∧ (∀ (captureType : String) (hasNotes : Bool) (tags : List (List Char)),
        0 ≤ NativeHost.calculate_importance captureType hasNotes tags
        ∧ NativeHost.calculate_importance captureType hasNotes tags ≤ 1) := by
  constructor
  · intro text en ue
    unfold Backfill.calculate_importance
    exact ⟨le_max_left _ _, max_le (by norm_num) (min_le_left _ _)⟩
  · intro ct hn tags
    unfold NativeHost.calculate_importance
    exact ⟨le_max_left _ _, max_le (by norm_num) (min_le_left _ _)⟩

/-! ### Claim C9 -/

/-- C9: on `"Successfully fixed the deployment issue"` the type patterns of
`technical_achievement` score 2 (`successfully`, `fixed`), beating `problem`
(`issue`, score 1), and the backfill importance 0.73 (base 0.5 + 0.15 for the
high signal `success` + 0.08 for the medium signal `fixed`) is strictly above
the 0.5 base; on any text where no type pattern matches the inferred type is
the default `'note'`. -/
theorem c9_classifier :
    infer_observation_type "Successfully fixed the deployment issue".data
      = "technical_achievement"
    ∧ 1/2 < Backfill.calculate_importance
        "Successfully fixed the deployment issue".data none []
    ∧ ∀ text : List Char,
        (∀ ts ∈ TYPE_PATTERNS, typeScore ts.2 (pyLower text) = 0) →
        infer_observation_type text = "note" := by
  refine ⟨by decide, ?_, ?_⟩
  · have hH : countSignals HIGH_IMPORTANCE_SIGNALS
        (pyLower "Successfully fixed the deployment issue".data) = 1 := by decide
    have hM : countSignals MEDIUM_IMPORTANCE_SIGNALS
        (pyLower "Successfully fixed the deployment issue".data) = 1 := by decide
    have hL : countSignals LOW_IMPORTANCE_SIGNALS
        (pyLower "Successfully fixed the deployment issue".data) = 0 := by decide
    have hlen : ("Successfully fixed the deployment issue".data).length = 39 := by decide
    simp only [Backfill.calculate_importance, hH, hM, hL, hlen]
    norm_num [min_def, max_def]
  intro text hz
  have h0 : typeScores text = [] := by
    rw [typeScores, List.filterMap_eq_nil_iff]
    intro ts hts
    rw [hz ts hts]
    rfl
  rw [infer_observation_type, h0]

/-- C9 witness for the defaulting part: a text matching no pattern at all. -/
theorem c9_classifier_witness :
    (∀ ts ∈ TYPE_PATTERNS, typeScore ts.2 (pyLower "zzz 42".data) = 0)
    ∧ infer_observation_type "zzz 42".data = "note" :=
  ⟨by decide, c9_classifier.2.2 "zzz 42".data (by decide)⟩

/-! ### Claim C10 -/

theorem browser_mem_final (l : List (List Char)) :
    "browser".data ∈ (if "browser".data ∈ l then l else l ++ ["browser".data]) := by
  split
  · assumption
  · exact List.mem_append_right _ (List.mem_singleton.mpr rfl)

theorem mem_final_of_mem {a : List Char} {l : List (List Char)} (h : a ∈ l) :
    a ∈ (if "browser".data ∈ l then l else l ++ ["browser".data]) := by
  split
  · exact h
  · exact List.mem_append_left _ h

theorem withCategory_mem_self (l : List (List Char)) (category : List Char)
    (h1 : category ≠ []) (h2 : category ≠ "auto".data) :
    category ∈ NativeHost.withCategory l category := by
  rw [NativeHost.withCategory]
  by_cases hc : category ∈ l
  · rw [if_neg (by intro h; exact h.2.2 hc)]
    exact hc
  · rw [if_pos ⟨h1, h2, hc⟩]
    exact List.mem_append_right _ (List.mem_singleton.mpr rfl)

/-- C10, amended: every saved tag list contains `'browser'`; a NON-EMPTY
category other than `'auto'` is present as a tag (the amendment adds
non-empty: the code guard `if category and category != 'auto'` skips the
falsy empty string, see the counterexample); a comma-separated tag string is
accepted and split into individual stripped tags. -/
theorem c10_tags :
    (∀ (tagsIn : NativeHost.TagsIn) (category : List Char),
        "browser".data ∈ NativeHost.save_observation_tags tagsIn category
        ∧ (category ≠ [] → category ≠ "auto".data →
            category ∈ NativeHost.save_observation_tags tagsIn category))
    ∧ (∀ (s : List Char) (category : List Char),
        NativeHost.save_observation_tags (NativeHost.TagsIn.str s) category
          = NativeHost.save_observation_tags
              (NativeHost.TagsIn.list (((NativeHost.splitComma s).map pyStrip).filter (fun t => t ≠ [])))
              category)
    ∧ NativeHost.save_observation_tags (NativeHost.TagsIn.str " a, b ,,c ".data) "auto".data
        = ["a".data, "b".data, "c".data, "browser".data] := by
  refine ⟨?_, fun s cat => rfl, by decide⟩
  intro tin cat
  constructor
  · rw [NativeHost.save_observation_tags]
    exact browser_mem_final _
  · intro h1 h2
    rw [NativeHost.save_observation_tags]
    exact mem_final_of_mem (withCategory_mem_self _ _ h1 h2)

/-- C10 counterexample to the claim as stated: the empty string is a
category other than `'auto'`, but the Python truthiness guard drops it, so it
is not present in the saved tags. -/
theorem c10_counterexample :
    NativeHost.save_observation_tags (NativeHost.TagsIn.list []) [] = ["browser".data]
    ∧ ([] : List Char) ≠ "auto".data
    ∧ ([] : List Char) ∉ NativeHost.save_observation_tags (NativeHost.TagsIn.list []) [] := by
  decide

/-- C10 witness: the amended statement applied at a concrete capture. -/
theorem c10_tags_witness :
    "browser".data ∈ NativeHost.save_observation_tags (NativeHost.TagsIn.list ["x".data]) "docs".data
    ∧ "docs".data ∈ NativeHost.save_observation_tags (NativeHost.TagsIn.list ["x".data]) "docs".data :=
  ⟨(c10_tags.1 (NativeHost.TagsIn.list ["x".data]) "docs".data).1,
   (c10_tags.1 (NativeHost.TagsIn.list ["x".data]) "docs".data).2 (by decide) (by decide)⟩

/-! ### Claim C6 -/

/-- A provider attempt that yields no usable vector: an exception /
error response (`none`) or an empty embedding (`some []`). -/
def providerFails (o : Option (List ℚ)) : Prop := o = none ∨ o = some []

/-- C6: the chain fails only when every provider fails.  If Ollama fails and
LM Studio returns a non-empty vector, both the script chain and the retrieval
endpoint use the fallback vector and the endpoint labels the response with
`embedding_source = 'lmstudio'`; when both providers fail the endpoint
returns the 503 response, which is a different constructor from every
success response and in particular from an empty result set. -/
theorem c6_provider_fallback :
    (∀ (o l : Option (List ℚ)) (v : List ℚ), providerFails o → l = some v → v ≠ [] →
        providerChain o l = some (v, "lmstudio")
        ∧ get_ollama_embedding o l = some v
        ∧ ∀ (simFn : List ℚ → List ℚ → ℚ) (db : SearchDB) (q : List Char)
            (limitRaw : Int) (minRaw : ℚ) (inc : Bool), pyStrip q ≠ [] →
            api_semantic_search simFn db o l q limitRaw minRaw inc =
              .ok ((searchLimited simFn v db inc (clampSim minRaw)
                    (clampLimit limitRaw)).map formatRow)
                  ((searchLimited simFn v db inc (clampSim minRaw)
                    (clampLimit limitRaw)).map formatRow).length
                  (clampSim minRaw) "lmstudio")
    ∧ (∀ (o l : Option (List ℚ)), providerFails o → providerFails l →
        get_ollama_embedding o l = none
        ∧ (∀ (simFn : List ℚ → List ℚ → ℚ) (db : SearchDB) (q : List Char)
            (limitRaw : Int) (minRaw : ℚ) (inc : Bool), pyStrip q ≠ [] →
            api_semantic_search simFn db o l q limitRaw minRaw inc = .unavailable503)
        ∧ (∀ (rows : List OutRow) (count : Nat) (minSim : ℚ) (src : String),
            SearchResp.unavailable503 ≠ SearchResp.ok rows count minSim src)) := by
  constructor
  · intro o l v ho hl hv
    have hchain : providerChain o l = some (v, "lmstudio") := by
      rcases ho with h | h
      · rw [h, providerChain, hl, lmBranch, if_neg hv]
      · rw [h, providerChain, if_pos rfl, hl, lmBranch, if_neg hv]
    refine ⟨hchain, by rw [get_ollama_embedding, hchain]; rfl, ?_⟩
    intro simFn db q lr mr inc hq
    rw [api_semantic_search, if_neg hq, hchain]
  · intro o l ho hl
    have hchain : providerChain o l = none := by
      have hlm : lmBranch l = none := by
        rcases hl with h | h
        · rw [h, lmBranch]
        · rw [h, lmBranch, if_pos rfl]
      rcases ho with h | h
      · rw [h, providerChain, hlm]
      · rw [h, providerChain, if_pos rfl, hlm]
    refine ⟨by rw [get_ollama_embedding, hchain]; rfl, ?_, ?_⟩
    · intro simFn db q lr mr inc hq
      rw [api_semantic_search, if_neg hq, hchain]
    · intro rows count minSim src h
      exact SearchResp.noConfusion h

/-- C6 witness: Ollama down, LM Studio returning a one-dimensional vector;
and both providers down. -/
theorem c6_provider_fallback_witness :
    providerChain none (some [1]) = some ([1], "lmstudio")
    ∧ get_ollama_embedding none (some [1]) = some [1]
    ∧ get_ollama_embedding none none = none :=
  ⟨(c6_provider_fallback.1 none (some [1]) [1] (Or.inl rfl) rfl (by decide)).1,
   (c6_provider_fallback.1 none (some [1]) [1] (Or.inl rfl) rfl (by decide)).2.1,
   (c6_provider_fallback.2 none none (Or.inl rfl) (Or.inl rfl)).1⟩

/-! ### Claim C2 -/

/-- The retrieval contract of claim C2 as the code satisfies it: once a query
embedding `qv` with source label `src` was obtained, the endpoint answers
`.ok` with the filtered, descending-sorted, limited, formatted rows; every
selected row clears the clamped similarity floor; the selection is sorted by
descending similarity and within the clamped limit; formatted rows never
carry the stored embedding; a NON-ZERO similarity is reported rounded to 4
decimal digits while a similarity of exactly 0 is reported as null (the
Python truthiness guard); the clamps stay in their documented ranges; and
with `include_archive` both tables enter one pool before filtering, sorting
and limiting. -/
def c2Spec (simFn : List ℚ → List ℚ → ℚ) (db : SearchDB) (ollama lms : Option (List ℚ))
    (q : List Char) (limitRaw : Int) (minRaw : ℚ) (inc : Bool)
    (qv : List ℚ) (src : String) : Prop :=
  api_semantic_search simFn db ollama lms q limitRaw minRaw inc =
      .ok ((searchLimited simFn qv db inc (clampSim minRaw) (clampLimit limitRaw)).map
            formatRow)
          ((searchLimited simFn qv db inc (clampSim minRaw) (clampLimit limitRaw)).map
            formatRow).length
          (clampSim minRaw) src
  ∧ (∀ r ∈ searchLimited simFn qv db inc (clampSim minRaw) (clampLimit limitRaw),
      clampSim minRaw ≤ r.sim)
  ∧ List.Sorted descBySim
      (searchLimited simFn qv db inc (clampSim minRaw) (clampLimit limitRaw))
  ∧ (searchLimited simFn qv db inc (clampSim minRaw) (clampLimit limitRaw)).length
      ≤ clampLimit limitRaw
  ∧ (∀ r ∈ searchLimited simFn qv db inc (clampSim minRaw) (clampLimit limitRaw),
      (formatRow r).embedding = none
      ∧ (formatRow r).similarity = if r.sim = 0 then none else some (round4 r.sim))
  ∧ (0 ≤ clampSim minRaw ∧ clampSim minRaw ≤ 1
      ∧ 1 ≤ clampLimit limitRaw ∧ clampLimit limitRaw ≤ 100)
  ∧ (inc = true → searchPool simFn qv db inc
      = rankRows simFn qv "active" db.active ++ rankRows simFn qv "archive" db.archive)

/-- C2, amended (the amendment is the null reported for a similarity of
exactly 0; everything else is as claimed). -/
theorem c2_semantic_search (simFn : List ℚ → List ℚ → ℚ) (db : SearchDB)
    (ollama lms : Option (List ℚ)) (q : List Char) (limitRaw : Int) (minRaw : ℚ)
    (inc : Bool) (qv : List ℚ) (src : String)
    (hq : pyStrip q ≠ []) (hchain : providerChain ollama lms = some (qv, src)) :
    c2Spec simFn db ollama lms q limitRaw minRaw inc qv src := by
  refine ⟨?_, ?_, ?_, ?_, ?_, ⟨?_, ?_, ?_, ?_⟩, ?_⟩
  · rw [api_semantic_search, if_neg hq, hchain]
  · intro r hr
    have hr2 : r ∈ searchKept simFn qv db inc (clampSim minRaw) :=
      (List.mem_insertionSort descBySim).mp (List.mem_of_mem_take hr)
    exact of_decide_eq_true (List.mem_filter.mp hr2).2
  · exact List.Pairwise.sublist (List.take_sublist _ _)
      (List.sorted_insertionSort descBySim _)
  · rw [searchLimited, List.length_take]
    exact min_le_left _ _
  · exact fun r _ => ⟨rfl, rfl⟩
  · exact le_min (by norm_num) (le_max_left 0 minRaw)
  · exact min_le_left _ _
  · have h1 : (1 : Int) ≤ min 100 (max 1 limitRaw) :=
      le_min (by norm_num) (le_max_left 1 limitRaw)
    rw [clampLimit]
    omega
  · have h2 : min 100 (max 1 limitRaw) ≤ 100 := min_le_left _ _
    rw [clampLimit]
    omega
  · intro h
    rw [searchPool, if_pos h]

def c2xDB : SearchDB := ⟨[⟨1, "t".data, some [1]⟩], []⟩

/-- C2 counterexample to the claim as stated: with floor 0, a stored row at
similarity exactly 0 is returned, but its reported similarity is null rather
than the rounded number 0.0 — `round(x, 4) if r.get('similarity') else None`
treats the float 0.0 as falsy. -/
theorem c2_counterexample :
    api_semantic_search (fun _ _ => 0) c2xDB (some [1]) none "q".data 30 0 false
      = .ok [⟨1, "active", none, none⟩] 1 0 "ollama"
    ∧ (⟨1, "active", none, none⟩ : OutRow).similarity = none := by
  decide

/-- C2 witness: the amended contract applied at a concrete store and
query. -/
theorem c2_semantic_search_witness :
    pyStrip "q".data ≠ []
    ∧ c2Spec (fun _ _ => (1 : ℚ)) c2xDB (some [1]) none "q".data 30 (1/2) true
        [1] "ollama" :=
  ⟨by decide, c2_semantic_search _ _ _ _ _ _ _ _ _ _ (by decide) (by decide)⟩

/-! ### Helper lemmas for the chunking transaction -/

theorem foldl_insertActive : ∀ (l : List Obs) (db : DB),
    (l.map DbOp.insertActive).foldl applyOp db
      = ⟨db.active ++ l, db.archive, db.nextId + l.length⟩ := by
  intro l
  induction l with
  | nil => intro db; cases db; simp
  | cons o rest ih =>
      intro db
      rw [List.map_cons, List.foldl_cons]
      have h1 : applyOp db (DbOp.insertActive o)
          = ⟨db.active ++ [o], db.archive, db.nextId + 1⟩ := rfl
      rw [h1, ih]
      cases db
      simp only [DB.mk.injEq, List.append_assoc, List.singleton_append,
        List.length_cons]
      exact ⟨trivial, trivial, by omega⟩

theorem mkChunkObs_length (eid nid maxIdx n : Nat) (marker : List Char) :
    ∀ (cs : List (List Char)) (i : Nat),
      (mkChunkObs eid nid maxIdx n marker i cs).length = cs.length := by
  intro cs
  induction cs with
  | nil => intro i; rfl
  | cons c rest ih => intro i; rw [mkChunkObs, List.length_cons, ih, List.length_cons]

theorem mkChunkObs_oid_ge (eid nid maxIdx n : Nat) (marker : List Char) :
    ∀ (cs : List (List Char)) (i : Nat) (o : Obs),
      o ∈ mkChunkObs eid nid maxIdx n marker i cs → nid + i ≤ o.oid := by
  intro cs
  induction cs with
  | nil => intro i o h; simp [mkChunkObs] at h
  | cons c rest ih =>
      intro i o h
      rw [mkChunkObs] at h
      rcases List.mem_cons.mp h with h1 | h1
      · rw [h1]
      · have := ih (i + 1) o h1
        omega

theorem filter_oid_eq_nil {new : List Obs} {k nid : Nat} (hk : k < nid)
    (hge : ∀ o ∈ new, nid ≤ o.oid) :
    new.filter (fun x => x.oid = k) = [] := by
  rw [List.filter_eq_nil_iff]
  intro o ho
  have := hge o ho
  simp only [decide_eq_true_eq]
  omega

theorem filter_oid_ne_self {new : List Obs} {k nid : Nat} (hk : k < nid)
    (hge : ∀ o ∈ new, nid ≤ o.oid) :
    new.filter (fun x => x.oid ≠ k) = new := by
  rw [List.filter_eq_self]
  intro o ho
  have := hge o ho
  simp only [ne_eq, decide_not, Bool.not_eq_eq_eq_not, Bool.not_true,
    decide_eq_false_iff_not]
  omega

theorem filter_ne_then_eq (l : List Obs) (k : Nat) :
    (l.filter (fun x => x.oid ≠ k)).filter (fun x => x.oid = k) = [] := by
  rw [List.filter_filter, List.filter_eq_nil_iff]
  intro o _
  by_cases h : o.oid = k <;> simp [h]

/-! ### Claim C7 -/

/-- The atomicity contract of the chunking transaction: after a committed
run, querying the original id in the archive returns exactly the original
text, the active table no longer answers for that id, one new row exists per
chunk and every returned chunk id is queryable among the active rows; a
failure at any step leaves the store unchanged. -/
def c7Spec (db : DB) (obs : Obs) (maxIdx : Nat) : Prop :=
  (((chunk_long_observation db obs maxIdx none).1.archive.filter
      (fun o => o.oid = obs.oid)).map Obs.text) = [obs.text]
  ∧ (chunk_long_observation db obs maxIdx none).1.active.filter
      (fun o => o.oid = obs.oid) = []
  ∧ (chunk_long_observation db obs maxIdx none).2.length
      = (smart_chunk_text obs.text MAX_CHUNK_SIZE).length
  ∧ (∀ k ∈ (chunk_long_observation db obs maxIdx none).2,
      ∃ o ∈ (chunk_long_observation db obs maxIdx none).1.active, o.oid = k)
  ∧ ∀ j : Nat, chunk_long_observation db obs maxIdx (some j) = (db, [])

/-- C7: chunking-and-archival is atomic.  Hypotheses: the chunker splits the
text in at least two, the active table holds exactly one row for the
original id (the original itself), the archive holds none, and every active
id is below the next sequence id (freshness of the ids the inserts will
receive). -/
theorem c7_chunk_archival_atomic (db : DB) (obs : Obs) (maxIdx : Nat)
    (hN : 2 ≤ (smart_chunk_text obs.text MAX_CHUNK_SIZE).length)
    (hact : db.active.filter (fun o => o.oid = obs.oid) = [obs])
    (harch : db.archive.filter (fun o => o.oid = obs.oid) = [])
    (hfresh : ∀ o ∈ db.active, o.oid < db.nextId) :
    c7Spec db obs maxIdx := by
  have hobs_mem : obs ∈ db.active := by
    have h1 : obs ∈ db.active.filter (fun o => o.oid = obs.oid) := by
      rw [hact]; exact List.mem_singleton.mpr rfl
    exact (List.mem_filter.mp h1).1
  have hoid_lt : obs.oid < db.nextId := hfresh obs hobs_mem
  have hge : ∀ o ∈ mkChunkObs obs.entityId db.nextId maxIdx
      (smart_chunk_text obs.text MAX_CHUNK_SIZE).length (dateMarker obs.text) 0
      (smart_chunk_text obs.text MAX_CHUNK_SIZE), db.nextId ≤ o.oid := by
    intro o ho
    have := mkChunkObs_oid_ge obs.entityId db.nextId maxIdx
      (smart_chunk_text obs.text MAX_CHUNK_SIZE).length (dateMarker obs.text)
      (smart_chunk_text obs.text MAX_CHUNK_SIZE) 0 o ho
    omega
  have hnle : ¬ (smart_chunk_text obs.text MAX_CHUNK_SIZE).length ≤ 1 := by omega
  have hlen : (mkChunkObs obs.entityId db.nextId maxIdx
      (smart_chunk_text obs.text MAX_CHUNK_SIZE).length (dateMarker obs.text) 0
      (smart_chunk_text obs.text MAX_CHUNK_SIZE)).length
      = (smart_chunk_text obs.text MAX_CHUNK_SIZE).length :=
    mkChunkObs_length _ _ _ _ _ _ 0
  have hcopy : applyOp ⟨db.active ++ mkChunkObs obs.entityId db.nextId maxIdx
        (smart_chunk_text obs.text MAX_CHUNK_SIZE).length (dateMarker obs.text) 0
        (smart_chunk_text obs.text MAX_CHUNK_SIZE), db.archive,
        db.nextId + (mkChunkObs obs.entityId db.nextId maxIdx
          (smart_chunk_text obs.text MAX_CHUNK_SIZE).length (dateMarker obs.text) 0
          (smart_chunk_text obs.text MAX_CHUNK_SIZE)).length⟩
      (DbOp.copyToArchive obs.oid)
      = ⟨db.active ++ mkChunkObs obs.entityId db.nextId maxIdx
          (smart_chunk_text obs.text MAX_CHUNK_SIZE).length (dateMarker obs.text) 0
          (smart_chunk_text obs.text MAX_CHUNK_SIZE), db.archive ++ [obs],
          db.nextId + (mkChunkObs obs.entityId db.nextId maxIdx
            (smart_chunk_text obs.text MAX_CHUNK_SIZE).length (dateMarker obs.text) 0
            (smart_chunk_text obs.text MAX_CHUNK_SIZE)).length⟩ := by
    simp only [applyOp]
    rw [List.filter_append, hact, filter_oid_eq_nil hoid_lt hge]
    simp
  have hdel : applyOp ⟨db.active ++ mkChunkObs obs.entityId db.nextId maxIdx
        (smart_chunk_text obs.text MAX_CHUNK_SIZE).length (dateMarker obs.text) 0
        (smart_chunk_text obs.text MAX_CHUNK_SIZE), db.archive ++ [obs],
        db.nextId + (mkChunkObs obs.entityId db.nextId maxIdx
          (smart_chunk_text obs.text MAX_CHUNK_SIZE).length (dateMarker obs.text) 0
          (smart_chunk_text obs.text MAX_CHUNK_SIZE)).length⟩
      (DbOp.deleteActive obs.oid)
      = ⟨db.active.filter (fun o => o.oid ≠ obs.oid) ++ mkChunkObs obs.entityId db.nextId
          maxIdx (smart_chunk_text obs.text MAX_CHUNK_SIZE).length (dateMarker obs.text)
          0 (smart_chunk_text obs.text MAX_CHUNK_SIZE), db.archive ++ [obs],
          db.nextId + (mkChunkObs obs.entityId db.nextId maxIdx
            (smart_chunk_text obs.text MAX_CHUNK_SIZE).length (dateMarker obs.text) 0
            (smart_chunk_text obs.text MAX_CHUNK_SIZE)).length⟩ := by
    simp only [applyOp]
    rw [List.filter_append, filter_oid_ne_self hoid_lt hge]
  have hrun : chunk_long_observation db obs maxIdx none
      = (⟨db.active.filter (fun o => o.oid ≠ obs.oid) ++ mkChunkObs obs.entityId db.nextId
            maxIdx (smart_chunk_text obs.text MAX_CHUNK_SIZE).length (dateMarker obs.text)
            0 (smart_chunk_text obs.text MAX_CHUNK_SIZE),
          db.archive ++ [obs],
          db.nextId + (mkChunkObs obs.entityId db.nextId maxIdx
            (smart_chunk_text obs.text MAX_CHUNK_SIZE).length (dateMarker obs.text) 0
            (smart_chunk_text obs.text MAX_CHUNK_SIZE)).length⟩,
         (mkChunkObs obs.entityId db.nextId maxIdx
            (smart_chunk_text obs.text MAX_CHUNK_SIZE).length (dateMarker obs.text) 0
            (smart_chunk_text obs.text MAX_CHUNK_SIZE)).map Obs.oid) := by
    simp only [chunk_long_observation, if_neg hnle, chunkOps]
    rw [List.foldl_append, foldl_insertActive, List.foldl_cons, List.foldl_cons,
      List.foldl_nil, hcopy, hdel]
  refine ⟨?_, ?_, ?_, ?_, ?_⟩
  · rw [hrun]
    simp only
    rw [List.filter_append, harch]
    have h1 : [obs].filter (fun o => o.oid = obs.oid) = [obs] := by
      simp [List.filter_cons]
    rw [List.nil_append, h1, List.map_cons, List.map_nil]
  · rw [hrun]
    simp only
    rw [List.filter_append, filter_ne_then_eq, filter_oid_eq_nil hoid_lt hge,
      List.append_nil]
  · rw [hrun]
    simp only
    rw [List.length_map, hlen]
  · rw [hrun]
    simp only
    intro k hk
    obtain ⟨o, ho, rfl⟩ := List.mem_map.mp hk
    exact ⟨o, List.mem_append_right _ ho, rfl⟩
  · intro j
    simp only [chunk_long_observation, if_neg hnle]

def c7Obs : Obs := ⟨1, 1, "D: (1) aa (2) bb".data, 1, "manual", none⟩

def c7DB : DB := ⟨[c7Obs], [], 2⟩

/-- C7 witness: the atomicity contract at a concrete store holding one
observation that the chunker splits in three. -/
theorem c7_chunk_archival_atomic_witness :
    2 ≤ (smart_chunk_text c7Obs.text MAX_CHUNK_SIZE).length ∧ c7Spec c7DB c7Obs 1 :=
  ⟨by decide,
   c7_chunk_archival_atomic c7DB c7Obs 1 (by decide) (by decide) (by decide) (by decide)⟩
